import Mathlib

/-!
Shallow embedding of the cpuacct CPU-accounting code
(`kernel/sched/cpuacct.c`): per-CPU usage accumulators, the hierarchical
charge walk, the reset path, the tick/high-resolution reconciliation and
the idle/iowait/steal snapshot computation, together with theorems about
the spec-level properties of these operations.

All kernel counters are `u64`; they are embedded as `Nat` with explicit
wrap-around arithmetic modulo `2 ^ 64` wherever the C code performs `u64`
addition or subtraction.
-/

namespace Cpuacct

/-- `2 ^ 64`, the modulus of `u64` arithmetic. -/
def W : Nat := 2 ^ 64

/-- `u64` addition (wraps modulo `2 ^ 64`). -/
def add64 (a b : Nat) : Nat := (a + b) % W

/-- `u64` subtraction (wraps modulo `2 ^ 64`); faithful for operands `< W`. -/
def sub64 (a b : Nat) : Nat := (a + (W - b % W)) % W

theorem W_pos : 0 < W := by decide

theorem add64_lt (a b : Nat) : add64 a b < W := Nat.mod_lt _ W_pos

theorem add64_eq_add (a b : Nat) (h : a + b < W) : add64 a b = a + b :=
  Nat.mod_eq_of_lt h

theorem sub64_eq_sub (a b : Nat) (ha : a < W) (hb : b < W) (hba : b ≤ a) :
    sub64 a b = a - b := by
  unfold sub64
  rw [Nat.mod_eq_of_lt hb]
  have h1 : a + (W - b) = (a - b) + W := by omega
  rw [h1, Nat.add_mod_right, Nat.mod_eq_of_lt (by omega)]

/-- The two tick-accumulated usage categories of `enum cpuacct_stat_index`. -/
inductive StatIdx
  | user
  | system
deriving DecidableEq, Repr

/-- The iteration order of the `usages` array (`CPUACCT_STAT_USER`,
`CPUACCT_STAT_SYSTEM`). -/
def statIdxList : List StatIdx := [.user, .system]

/-- A legal index for `cpuacct_cpuusage_read`: a concrete category, or
`CPUACCT_STAT_NSTATS` which requests the sum of all categories. -/
inductive ReadIdx
  | stat (i : StatIdx)
  | nstats
deriving DecidableEq, Repr

/-- Categories of `struct kernel_cpustat`'s `cpustat` array. -/
inductive CpustatIdx
  | cputime_user
  | cputime_nice
  | cputime_system
  | cputime_softirq
  | cputime_irq
  | cputime_idle
  | cputime_iowait
  | cputime_steal
  | cputime_guest
  | cputime_guest_nice
deriving DecidableEq, Repr

/-- `struct prev_cputime`: the reconciliation cursor, remembering the last
reported (utime, stime) pair. -/
structure PrevCputime where
  utime : Nat
  stime : Nat
deriving DecidableEq, Repr

/-- `struct cpuacct_usage`: per-CPU usage accumulators plus the two
reconciliation cursors. -/
structure CpuacctUsage where
  usages : StatIdx → Nat
  prev_cputime1 : PrevCputime
  prev_cputime2 : PrevCputime

/-- The per-(group, CPU) shard of a `struct cpuacct`: the
`cpuacct_usage` entry, the `kernel_cpustat` entry and the
`cpuacct_alistats` migration counter. -/
structure GroupCpuState where
  cpuusage : CpuacctUsage
  cpustat : CpustatIdx → Nat
  nr_migrations : Nat

def zeroCpuacctUsage : CpuacctUsage :=
  { usages := fun _ => 0, prev_cputime1 := ⟨0, 0⟩, prev_cputime2 := ⟨0, 0⟩ }

def zeroGroupCpuState : GroupCpuState :=
  { cpuusage := zeroCpuacctUsage, cpustat := fun _ => 0, nr_migrations := 0 }

/-- Global accounting state: group id → CPU id → per-(group, CPU) shard.
Group ids stand for `struct cpuacct` pointers; the hierarchy manager's
parent chain of a group is passed to the walking operations as a list. -/
def GState : Type := Nat → Nat → GroupCpuState

/-- The zero-initialized state of freshly allocated groups
(`kzalloc` / `alloc_percpu` zero the storage). -/
def zeroGState : GState := fun _ _ => zeroGroupCpuState

/-- Point update of one (group, CPU) shard. -/
def updateGC (st : GState) (g cpu : Nat) (f : GroupCpuState → GroupCpuState) : GState :=
  fun g' c' => if g' = g ∧ c' = cpu then f (st g' c') else st g' c'

/-- Bump one usage accumulator of a shard by `amt` (`u64` `+=`). -/
def bumpUsage (x : GroupCpuState) (idx : StatIdx) (amt : Nat) : GroupCpuState :=
  { x with cpuusage :=
      { x.cpuusage with usages := fun i =>
          if i = idx then add64 (x.cpuusage.usages i) amt else x.cpuusage.usages i } }

/-- `cpuacct_charge`: pick `CPUACCT_STAT_USER` when the task was in user
mode, else `CPUACCT_STAT_SYSTEM`, then walk `task_ca(tsk)` through
`parent_ca` until NULL — i.e. over the whole ancestor chain including the
root — adding `cputime` to that category's accumulator on the current CPU.
`chain` is the ancestor chain `[task's group, parent, …, root]` supplied
by the hierarchy manager. -/
def cpuacct_charge (chain : List Nat) (cpu : Nat) (userMode : Bool) (cputime : Nat)
    (st : GState) : GState :=
  let index : StatIdx := if userMode then .user else .system
  chain.foldl (fun s g => updateGC s g cpu (fun x => bumpUsage x index cputime)) st

/-- `cpuacct_account_field`: walk the ancestor chain but stop as soon as
the walk reaches `&root_cpuacct`, adding `val` to `cpustat[index]` of each
visited group on the current CPU. -/
def cpuacct_account_field (chain : List Nat) (root : Nat) (cpu : Nat)
    (idx : CpustatIdx) (val : Nat) (st : GState) : GState :=
  (chain.takeWhile (fun g => g != root)).foldl
    (fun s g => updateGC s g cpu (fun x =>
      { x with cpustat := fun i =>
          if i = idx then add64 (x.cpustat i) val else x.cpustat i })) st

/-- `cpuacct_cpuusage_read`: read one category of the (group, CPU) shard,
or — at index `CPUACCT_STAT_NSTATS` — the running `u64` sum of all
categories. -/
def cpuacct_cpuusage_read (st : GState) (g cpu : Nat) (idx : ReadIdx) : Nat :=
  let u := (st g cpu).cpuusage
  match idx with
  | .nstats => statIdxList.foldl (fun d i => add64 d (u.usages i)) 0
  | .stat i => u.usages i

/-- `cpuacct_cpuusage_write`: set every usage category of the (group, CPU)
shard to `val`; the reconciliation cursors and the `cpustat` /
migration-counter banks are not touched. -/
def cpuacct_cpuusage_write (st : GState) (g cpu : Nat) (val : Nat) : GState :=
  updateGC st g cpu (fun x =>
    { x with cpuusage :=
        { x.cpuusage with usages :=
            (statIdxList.foldl
              (fun us i => fun j => if j = i then val else us j)
              x.cpuusage.usages) } })

/-- `__cpuusage_read`: `u64` sum of `cpuacct_cpuusage_read` over every
possible CPU (`for_each_possible_cpu`). -/
def __cpuusage_read (st : GState) (cpus : List Nat) (g : Nat) (idx : ReadIdx) : Nat :=
  cpus.foldl (fun t c => add64 t (cpuacct_cpuusage_read st g c idx)) 0

/-- `cpuusage_write`: only the literal value `0` is accepted; any other
value returns `-EINVAL` (−22) and changes nothing.  On `0`, every possible
CPU's usage categories of the group are zeroed. -/
def cpuusage_write (st : GState) (cpus : List Nat) (g : Nat) (val : Nat) :
    Int × GState :=
  if val ≠ 0 then (-22, st)
  else (0, cpus.foldl (fun s c => cpuacct_cpuusage_write s g c 0) st)

/-- Modelled from the spec: `cputime_adjust` (the TimeReconciler of §4.2;
its body lives in `kernel/sched/cputime.c`, which is not part of this
repository snapshot).  Rescales the tick-sampled pair `(raw_a, raw_b)`
onto the high-resolution total `raw_total`, clamps each side to be no
lower than the cursor's previously reported value, stores the result in
the cursor and returns it; when the tick pair is all-zero the total is
attributed to whichever side previously had the only nonzero share
(tie-break: the `b`/system-like side). -/
def cputime_adjust (raw_total raw_a raw_b : Nat) (cur : PrevCputime) :
    Nat × Nat × PrevCputime :=
  if raw_a + raw_b = 0 then
    if raw_total = 0 then (cur.utime, cur.stime, cur)
    else
      let base : Nat × Nat :=
        if cur.utime ≠ 0 ∧ cur.stime = 0 then (raw_total, 0) else (0, raw_total)
      let a' := max base.1 cur.utime
      let b' := max base.2 cur.stime
      (a', b', ⟨a', b'⟩)
  else
    let a0 := raw_total * raw_a / (raw_a + raw_b)
    let b0 := raw_total - a0
    let a' := max a0 cur.utime
    let b' := max b0 cur.stime
    (a', b', ⟨a', b'⟩)

/-- The schedstat fields of a `struct sched_entity` consumed by the
idle/iowait/ineffective/steal snapshot. -/
structure SchedEntity where
  cg_idle_sum : Nat
  cg_idle_start : Nat
  cg_iowait_sum : Nat
  cg_iowait_start : Nat
  cg_ineffective_sum : Nat
  cg_ineffective_start : Nat
  cg_init_time : Nat
  sum_exec_raw : Nat
deriving DecidableEq, Repr

/-- A `struct task_group` as used here: its per-CPU `sched_entity`
pointers (possibly NULL). -/
structure TaskGroup where
  se : Nat → Option SchedEntity

/-- `struct cpuacct_usage_result`. -/
structure UsageResult where
  user : Nat
  nice : Nat
  system : Nat
  idle : Nat
  iowait : Nat
  irq : Nat
  softirq : Nat
  steal : Nat
  guest : Nat
  guest_nice : Nat
deriving DecidableEq, Repr

def zeroUsageResult : UsageResult := ⟨0, 0, 0, 0, 0, 0, 0, 0, 0, 0⟩

/-- `__cpuacct_get_usage_result` for one (group, CPU) shard `gc`: a NULL
`tg` yields an all-zero result; otherwise the reconciler runs twice (first
total execution time against tick (user+nice, sys) on cursor 1, then the
user+nice output against tick (user, nice) on cursor 2), the idle /
iowait / ineffective windows are extended to `now` where open, steal is
the clamped remainder of elapsed time and iowait is carved out of idle at
the end.  Returns the result record and the shard with both cursors
advanced; `now` is the `cpu_clock(cpu)` reading. -/
def __cpuacct_get_usage_result (gc : GroupCpuState) (cpu : Nat)
    (tg : Option TaskGroup) (schedstatEnabled : Bool) (now : Nat) :
    UsageResult × GroupCpuState :=
  match tg with
  | none => (zeroUsageResult, gc)
  | some t =>
    let se := t.se cpu
    let cu := gc.cpuusage
    let tick_user := gc.cpustat .cputime_user
    let tick_nice := gc.cpustat .cputime_nice
    let tick_sys := gc.cpustat .cputime_system
    let sumExec := add64 (cu.usages .user) (cu.usages .system)
    let r1 := cputime_adjust sumExec (add64 tick_user tick_nice) tick_sys cu.prev_cputime1
    let r2 := cputime_adjust r1.1 tick_user tick_nice cu.prev_cputime2
    let winds : Nat × Nat × Nat :=
      match se, schedstatEnabled with
      | some e, true =>
        let idle0 :=
          if e.cg_idle_start ≠ 0 ∧ e.cg_idle_start < now
          then add64 e.cg_idle_sum (now - e.cg_idle_start) else e.cg_idle_sum
        let ineff :=
          if e.cg_ineffective_start ≠ 0
          then add64 e.cg_ineffective_sum (sub64 now e.cg_ineffective_start)
          else e.cg_ineffective_sum
        let iow :=
          if e.cg_iowait_start ≠ 0
          then add64 e.cg_iowait_sum (sub64 now e.cg_iowait_start)
          else e.cg_iowait_sum
        let elapse := sub64 now e.cg_init_time
        let complement := add64 (add64 idle0 e.sum_exec_raw) ineff
        let steal := if complement < elapse then elapse - complement else 0
        (sub64 idle0 iow, iow, steal)
      | _, _ => (0, 0, 0)
    ({ user := r2.1, nice := r2.2.1, system := r1.2.1,
       idle := winds.1, iowait := winds.2.1,
       irq := gc.cpustat .cputime_irq, softirq := gc.cpustat .cputime_softirq,
       steal := winds.2.2, guest := gc.cpustat .cputime_guest,
       guest_nice := gc.cpustat .cputime_guest_nice },
     { gc with cpuusage := { cu with prev_cputime1 := r1.2.2, prev_cputime2 := r2.2.2 } })

/-- The accumulated fields of `cpuacct_proc_stats_show` (before the
`nsec_to_clock_t` formatting); guest and guest_nice are both folded into
`guest`, as in the source. -/
structure ProcStats where
  user : Nat
  nice : Nat
  system : Nat
  idle : Nat
  iowait : Nat
  irq : Nat
  softirq : Nat
  steal : Nat
  guest : Nat
  nr_migrations : Nat
deriving DecidableEq, Repr

def zeroProcStats : ProcStats := ⟨0, 0, 0, 0, 0, 0, 0, 0, 0, 0⟩

/-- One loop iteration of the non-root branch of
`cpuacct_proc_stats_show`: skip CPUs outside the `HK_FLAG_DOMAIN`
housekeeping set, otherwise accumulate the usage-result fields and the
migration counter with `u64` additions. -/
def procStatsStep (sts : Nat → GroupCpuState) (tg : Option TaskGroup)
    (schedstatEnabled : Bool) (clock : Nat → Nat) (hk : Nat → Bool)
    (acc : ProcStats) (cpu : Nat) : ProcStats :=
  if hk cpu then
    let res := (__cpuacct_get_usage_result (sts cpu) cpu tg schedstatEnabled (clock cpu)).1
    { user := add64 acc.user res.user,
      nice := add64 acc.nice res.nice,
      system := add64 acc.system res.system,
      irq := add64 acc.irq res.irq,
      softirq := add64 acc.softirq res.softirq,
      steal := add64 acc.steal res.steal,
      guest := add64 (add64 acc.guest res.guest) res.guest_nice,
      iowait := add64 acc.iowait res.iowait,
      idle := add64 acc.idle res.idle,
      nr_migrations := add64 acc.nr_migrations (sts cpu).nr_migrations }
  else acc

/-- The non-root branch of `cpuacct_proc_stats_show`: fold `procStatsStep`
over every possible CPU.  `sts` is the group's per-CPU shard array (each
CPU's shard is visited at most once, so the cursor writes of
`__cpuacct_get_usage_result` never feed back into a later iteration and
the fold over immutable shards computes the same sums as the source). -/
def cpuacct_proc_stats_show (cpus : List Nat) (hk : Nat → Bool)
    (sts : Nat → GroupCpuState) (tg : Option TaskGroup)
    (schedstatEnabled : Bool) (clock : Nat → Nat) : ProcStats :=
  cpus.foldl (procStatsStep sts tg schedstatEnabled clock hk) zeroProcStats

/-- The per-CPU usage result the extended-statistics read is built from. -/
def procResAt (sts : Nat → GroupCpuState) (tg : Option TaskGroup)
    (schedstatEnabled : Bool) (clock : Nat → Nat) (cpu : Nat) : UsageResult :=
  (__cpuacct_get_usage_result (sts cpu) cpu tg schedstatEnabled (clock cpu)).1

/-- The claim's reading of the extended-statistics snapshot: the plain sum
of each per-CPU field over ALL the listed CPUs (reduced to the `u64`
range), with guest and guest_nice merged into `guest`. -/
def procStatsSumOver (cpul : List Nat) (sts : Nat → GroupCpuState)
    (tg : Option TaskGroup) (schedstatEnabled : Bool) (clock : Nat → Nat) : ProcStats :=
  let r := procResAt sts tg schedstatEnabled clock
  { user := (cpul.map fun c => (r c).user).sum % W,
    nice := (cpul.map fun c => (r c).nice).sum % W,
    system := (cpul.map fun c => (r c).system).sum % W,
    idle := (cpul.map fun c => (r c).idle).sum % W,
    iowait := (cpul.map fun c => (r c).iowait).sum % W,
    irq := (cpul.map fun c => (r c).irq).sum % W,
    softirq := (cpul.map fun c => (r c).softirq).sum % W,
    steal := (cpul.map fun c => (r c).steal).sum % W,
    guest := (cpul.map fun c => (r c).guest + (r c).guest_nice).sum % W,
    nr_migrations := (cpul.map fun c => (sts c).nr_migrations).sum % W }

/-- The spec's words for the double reconciliation (§4.2/§4.5): first
split the high-resolution total into (user+nice, system) from tick
(user+nice, sys) on cursor 1, then split the user+nice share into
(user, nice) from tick (user, nice) on cursor 2.  Returns
((user, nice, system), (cursor1', cursor2')). -/
def specTwoStepSplit (rawTotal tick_user tick_nice tick_sys : Nat)
    (cur1 cur2 : PrevCputime) : (Nat × Nat × Nat) × PrevCputime × PrevCputime :=
  let s1 := cputime_adjust rawTotal (tick_user + tick_nice) tick_sys cur1
  let s2 := cputime_adjust s1.1 tick_user tick_nice cur2
  ((s2.1, s2.2.1, s1.2.1), s1.2.2, s2.2.2)

/-! ## Generic lemmas about the fold patterns of the embedding -/

theorem foldl_add64_map {α : Type} (f : α → Nat) (l : List α) (a : Nat) (ha : a < W) :
    l.foldl (fun t x => add64 t (f x)) a = (a + (l.map f).sum) % W := by
  induction l generalizing a with
  | nil => simp [Nat.mod_eq_of_lt ha]
  | cons x t ih =>
      simp only [List.foldl_cons, List.map_cons, List.sum_cons]
      rw [ih _ (add64_lt _ _)]
      unfold add64
      rw [Nat.mod_add_mod, Nat.add_assoc]

theorem sum_indicator {l : List Nat} (hnd : l.Nodup) {c : Nat} (hc : c ∈ l)
    (f : Nat → Nat) (hz : ∀ c' ∈ l, c' ≠ c → f c' = 0) :
    (l.map f).sum = f c := by
  induction l with
  | nil => cases hc
  | cons x t ih =>
      simp only [List.map_cons, List.sum_cons]
      rcases List.mem_cons.mp hc with rfl | hct
      · have : ∀ c' ∈ t, f c' = 0 := by
          intro c' hc'
          exact hz c' (List.mem_cons_of_mem _ hc')
            (fun h => (List.nodup_cons.mp hnd).1 (h ▸ hc'))
        have hs : (t.map f).sum = 0 := by
          apply List.sum_eq_zero
          intro y hy
          rcases List.mem_map.mp hy with ⟨c', hc', rfl⟩
          exact this c' hc'
        omega
      · have hxc : x ≠ c := by
          rintro rfl
          exact (List.nodup_cons.mp hnd).1 hct
        rw [hz x (List.mem_cons_self _ _) hxc,
          ih (List.nodup_cons.mp hnd).2 hct
            (fun c' hc' => hz c' (List.mem_cons_of_mem _ hc'))]
        omega

theorem foldl_update_other (chain : List Nat) (cpu : Nat)
    (f : GroupCpuState → GroupCpuState) (st : GState) (g' c' : Nat)
    (h : g' ∉ chain ∨ c' ≠ cpu) :
    (chain.foldl (fun s g => updateGC s g cpu f) st) g' c' = st g' c' := by
  induction chain generalizing st with
  | nil => rfl
  | cons x t ih =>
      simp only [List.foldl_cons]
      have h' : g' ∉ t ∨ c' ≠ cpu := by
        rcases h with h | h
        · exact Or.inl (fun hm => h (List.mem_cons_of_mem _ hm))
        · exact Or.inr h
      rw [ih _ h']
      unfold updateGC
      have hne : ¬(g' = x ∧ c' = cpu) := by
        rcases h with h | h
        · rintro ⟨rfl, -⟩
          exact h (List.mem_cons_self _ _)
        · rintro ⟨-, rfl⟩
          exact h rfl
      simp [hne]

theorem foldl_update_mem (chain : List Nat) (hnd : chain.Nodup) (cpu : Nat)
    (f : GroupCpuState → GroupCpuState) (st : GState) (g : Nat) (hg : g ∈ chain) :
    (chain.foldl (fun s g0 => updateGC s g0 cpu f) st) g cpu = f (st g cpu) := by
  induction chain generalizing st with
  | nil => cases hg
  | cons x t ih =>
      simp only [List.foldl_cons]
      rcases List.mem_cons.mp hg with rfl | hgt
      · have hx : g ∉ t := (List.nodup_cons.mp hnd).1
        rw [foldl_update_other t cpu f _ g cpu (Or.inl hx)]
        unfold updateGC
        simp
      · have hgx : g ≠ x := by
          rintro rfl
          exact (List.nodup_cons.mp hnd).1 hgt
        rw [ih (List.nodup_cons.mp hnd).2 _ hgt]
        unfold updateGC
        simp [hgx]

theorem cputime_adjust_ge (t a b : Nat) (cur : PrevCputime) :
    cur.utime ≤ (cputime_adjust t a b cur).1 ∧
    cur.stime ≤ (cputime_adjust t a b cur).2.1 := by
  unfold cputime_adjust
  split_ifs <;> simp [Nat.le_max_right]

theorem cputime_adjust_cursor (t a b : Nat) (cur : PrevCputime) :
    (cputime_adjust t a b cur).2.2 =
      ⟨(cputime_adjust t a b cur).1, (cputime_adjust t a b cur).2.1⟩ := by
  unfold cputime_adjust
  split_ifs <;> rfl

theorem cpuusage_read_nstats (st : GState) (g c : Nat) :
    cpuacct_cpuusage_read st g c .nstats =
      ((st g c).cpuusage.usages .user + (st g c).cpuusage.usages .system) % W := by
  unfold cpuacct_cpuusage_read statIdxList
  simp [add64, Nat.mod_add_mod]

theorem cpuusage_read_sum (st : GState) (cpus : List Nat) (g : Nat) (idx : ReadIdx) :
    __cpuusage_read st cpus g idx =
      (cpus.map fun c => cpuacct_cpuusage_read st g c idx).sum % W := by
  unfold __cpuusage_read
  rw [foldl_add64_map _ _ _ W_pos]
  simp

/-- A whole sequence of `cpuacct_charge` deliveries at one CPU: each
element gives the user-mode flag and the charged amount. -/
def applyCharges (chain : List Nat) (c : Nat) (charges : List (Bool × Nat))
    (st : GState) : GState :=
  charges.foldl (fun s ch => cpuacct_charge chain c ch.1 ch.2 s) st

theorem cpuacct_charge_other (chain : List Nat) (c : Nat) (um : Bool) (amt : Nat)
    (st : GState) (g' c' : Nat) (h : g' ∉ chain ∨ c' ≠ c) :
    (cpuacct_charge chain c um amt st) g' c' = st g' c' := by
  unfold cpuacct_charge
  exact foldl_update_other chain c _ st g' c' h

theorem cpuacct_charge_mem (chain : List Nat) (hnd : chain.Nodup) (c : Nat)
    (um : Bool) (amt : Nat) (st : GState) (g : Nat) (hg : g ∈ chain) :
    (cpuacct_charge chain c um amt st) g c =
      bumpUsage (st g c) (if um then .user else .system) amt := by
  unfold cpuacct_charge
  exact foldl_update_mem chain hnd c _ st g hg

theorem applyCharges_other (chain : List Nat) (c : Nat) (charges : List (Bool × Nat))
    (st : GState) (g' c' : Nat) (h : g' ∉ chain ∨ c' ≠ c) :
    (applyCharges chain c charges st) g' c' = st g' c' := by
  induction charges generalizing st with
  | nil => rfl
  | cons ch t ih =>
      unfold applyCharges
      simp only [List.foldl_cons]
      rw [show (List.foldl (fun s ch => cpuacct_charge chain c ch.1 ch.2 s) _ t) =
        applyCharges chain c t (cpuacct_charge chain c ch.1 ch.2 st) from rfl]
      rw [ih _, cpuacct_charge_other chain c ch.1 ch.2 st g' c' h]

theorem applyCharges_total (chain : List Nat) (hnd : chain.Nodup) (c : Nat)
    (charges : List (Bool × Nat)) (st : GState) (g : Nat) (hg : g ∈ chain) :
    (((applyCharges chain c charges st) g c).cpuusage.usages .user +
     ((applyCharges chain c charges st) g c).cpuusage.usages .system) % W =
    ((st g c).cpuusage.usages .user + (st g c).cpuusage.usages .system +
     (charges.map Prod.snd).sum) % W := by
  induction charges generalizing st with
  | nil => simp [applyCharges]
  | cons ch t ih =>
      unfold applyCharges
      simp only [List.foldl_cons, List.map_cons, List.sum_cons]
      rw [show (List.foldl (fun s ch => cpuacct_charge chain c ch.1 ch.2 s) _ t) =
        applyCharges chain c t (cpuacct_charge chain c ch.1 ch.2 st) from rfl]
      rw [ih]
      rw [cpuacct_charge_mem chain hnd c ch.1 ch.2 st g hg]
      rcases ch with ⟨um, amt⟩
      set u := (st g c).cpuusage.usages .user with hu
      set s := (st g c).cpuusage.usages .system with hs
      cases um
      · show (u + (s + amt) % W + (t.map Prod.snd).sum) % W =
          (u + s + (amt + (t.map Prod.snd).sum)) % W
        have h1 : u + (s + amt) % W + (t.map Prod.snd).sum =
            (s + amt) % W + (u + (t.map Prod.snd).sum) := by omega
        rw [h1, Nat.mod_add_mod]
        congr 1
        omega
      · show ((u + amt) % W + s + (t.map Prod.snd).sum) % W =
          (u + s + (amt + (t.map Prod.snd).sum)) % W
        have h1 : (u + amt) % W + s + (t.map Prod.snd).sum =
            (u + amt) % W + (s + (t.map Prod.snd).sum) := by omega
        rw [h1, Nat.mod_add_mod]
        congr 1
        omega

theorem map_congr_mem {α β : Type} (l : List α) (f g : α → β)
    (h : ∀ a ∈ l, f a = g a) : l.map f = l.map g := by
  induction l with
  | nil => rfl
  | cons x t ih =>
      simp only [List.map_cons]
      rw [h x (List.mem_cons_self _ _), ih (fun a ha => h a (List.mem_cons_of_mem _ ha))]

theorem sum_update_one (l : List Nat) (hnd : l.Nodup) (c : Nat) (hc : c ∈ l)
    (f f' : Nat → Nat) (X : Nat)
    (heq : ∀ c' ∈ l, c' ≠ c → f' c' = f c') (hch : f' c = f c + X) :
    (l.map f').sum = (l.map f).sum + X := by
  induction l with
  | nil => cases hc
  | cons x t ih =>
      simp only [List.map_cons, List.sum_cons]
      rcases List.mem_cons.mp hc with rfl | hct
      · have hxt : c ∉ t := (List.nodup_cons.mp hnd).1
        have : t.map f' = t.map f :=
          map_congr_mem t f' f (fun a ha =>
            heq a (List.mem_cons_of_mem _ ha) (fun h => hxt (h ▸ ha)))
        rw [hch, this]
        omega
      · have hxc : x ≠ c := by
          rintro rfl
          exact (List.nodup_cons.mp hnd).1 hct
        rw [heq x (List.mem_cons_self _ _) hxc,
          ih (List.nodup_cons.mp hnd).2 hct
            (fun c' h hne => heq c' (List.mem_cons_of_mem _ h) hne)]
        omega

/-- Claim C1: for every sequence of N charges delivered via
`cpuacct_charge` to a single (CPU, group) pair with no intervening reset,
the group total returned by the all-CPU sum (`__cpuusage_read` with the
sum index `CPUACCT_STAT_NSTATS`) equals exactly the sum of the charged
amounts, with no loss and no duplication (exactness holds whenever that
sum fits in a `u64`). -/
theorem charges_single_pair_sum_exact
    (cpus : List Nat) (hcnd : cpus.Nodup) (c : Nat) (hc : c ∈ cpus)
    (chain : List Nat) (hnd : chain.Nodup) (g : Nat) (hg : g ∈ chain)
    (charges : List (Bool × Nat))
    (hov : (charges.map Prod.snd).sum < W) :
    __cpuusage_read (applyCharges chain c charges zeroGState) cpus g .nstats =
      (charges.map Prod.snd).sum := by
  rw [cpuusage_read_sum]
  have hother : ∀ c' ∈ cpus, c' ≠ c →
      cpuacct_cpuusage_read (applyCharges chain c charges zeroGState) g c' .nstats = 0 := by
    intro c' _ hne
    rw [cpuusage_read_nstats, applyCharges_other _ _ _ _ _ _ (Or.inr hne)]
    simp [zeroGState, zeroGroupCpuState, zeroCpuacctUsage]
  rw [sum_indicator hcnd hc _ hother, cpuusage_read_nstats]
  have htot := applyCharges_total chain hnd c charges zeroGState g hg
  rw [htot]
  have hz : (zeroGState g c).cpuusage.usages StatIdx.user = 0 := rfl
  have hz2 : (zeroGState g c).cpuusage.usages StatIdx.system = 0 := rfl
  rw [hz, hz2]
  simp only [Nat.zero_add]
  rw [Nat.mod_eq_of_lt hov, Nat.mod_eq_of_lt hov]

theorem charges_single_pair_sum_exact_witness :
    __cpuusage_read (applyCharges [7, 3] 0 [(true, 100), (false, 50)] zeroGState)
      [0, 1] 7 .nstats = 150 :=
  charges_single_pair_sum_exact [0, 1] (by decide) 0 (by decide) [7, 3] (by decide)
    7 (by decide) [(true, 100), (false, 50)] (by decide)

/-- Claim C2: charging a leaf group by amount `X` via `cpuacct_charge`
increases the per-CPU usage accumulator, and hence the total reported
usage, of that group and of every strict ancestor up to and including the
root group by exactly `X` (`chain` is the walked chain, leaf first, root
last; `g` ranges over all its members). -/
theorem cpuacct_charge_hierarchy_exact
    (st : GState) (chain : List Nat) (hnd : chain.Nodup)
    (cpus : List Nat) (hcnd : cpus.Nodup) (c : Nat) (hc : c ∈ cpus)
    (um : Bool) (X : Nat) (g : Nat) (hg : g ∈ chain)
    (hov : (cpus.map fun c' => (st g c').cpuusage.usages .user +
            (st g c').cpuusage.usages .system).sum + X < W) :
    ((cpuacct_charge chain c um X st) g c).cpuusage.usages
        (if um then .user else .system) =
      (st g c).cpuusage.usages (if um then .user else .system) + X ∧
    __cpuusage_read (cpuacct_charge chain c um X st) cpus g .nstats =
      __cpuusage_read st cpus g .nstats + X := by
  have hmem := cpuacct_charge_mem chain hnd c um X st g hg
  have hcS : (st g c).cpuusage.usages .user + (st g c).cpuusage.usages .system ≤
      (cpus.map fun c' => (st g c').cpuusage.usages .user +
        (st g c').cpuusage.usages .system).sum :=
    List.single_le_sum (fun x _ => Nat.zero_le x) _ (List.mem_map_of_mem _ hc)
  have hraw : ∀ c' ∈ cpus,
      (st g c').cpuusage.usages .user + (st g c').cpuusage.usages .system < W := by
    intro c' hc'
    have : (st g c').cpuusage.usages .user + (st g c').cpuusage.usages .system ≤
        (cpus.map fun c'' => (st g c'').cpuusage.usages .user +
          (st g c'').cpuusage.usages .system).sum :=
      List.single_le_sum (fun x _ => Nat.zero_le x) _ (List.mem_map_of_mem _ hc')
    omega
  constructor
  · rw [hmem]
    cases um
    · show ((st g c).cpuusage.usages .system + X) % W =
        (st g c).cpuusage.usages .system + X
      exact Nat.mod_eq_of_lt (by omega)
    · show ((st g c).cpuusage.usages .user + X) % W =
        (st g c).cpuusage.usages .user + X
      exact Nat.mod_eq_of_lt (by omega)
  · rw [cpuusage_read_sum, cpuusage_read_sum]
    have hfst : (cpus.map fun c' =>
        cpuacct_cpuusage_read st g c' .nstats) =
        cpus.map fun c' => (st g c').cpuusage.usages .user +
          (st g c').cpuusage.usages .system := by
      apply map_congr_mem
      intro c' hc'
      rw [cpuusage_read_nstats]
      exact Nat.mod_eq_of_lt (hraw c' hc')
    have hsnd : (cpus.map fun c' =>
        cpuacct_cpuusage_read (cpuacct_charge chain c um X st) g c' .nstats).sum =
        (cpus.map fun c' => cpuacct_cpuusage_read st g c' .nstats).sum + X := by
      apply sum_update_one cpus hcnd c hc
      · intro c' _ hne
        rw [cpuusage_read_nstats,
          cpuacct_charge_other chain c um X st g c' (Or.inr hne),
          ← cpuusage_read_nstats]
      · rw [cpuusage_read_nstats, hmem]
        cases um
        · show ((st g c).cpuusage.usages .user +
            ((st g c).cpuusage.usages .system + X) % W) % W =
            cpuacct_cpuusage_read st g c .nstats + X
          rw [cpuusage_read_nstats,
            Nat.mod_eq_of_lt (a := (st g c).cpuusage.usages .system + X) (by omega),
            Nat.mod_eq_of_lt (by omega), Nat.mod_eq_of_lt (by omega)]
          omega
        · show (((st g c).cpuusage.usages .user + X) % W +
            (st g c).cpuusage.usages .system) % W =
            cpuacct_cpuusage_read st g c .nstats + X
          rw [cpuusage_read_nstats,
            Nat.mod_eq_of_lt (a := (st g c).cpuusage.usages .user + X) (by omega),
            Nat.mod_eq_of_lt (by omega), Nat.mod_eq_of_lt (by omega)]
          omega
    rw [hsnd, hfst]
    rw [Nat.mod_eq_of_lt (by omega), Nat.mod_eq_of_lt (by omega)]

theorem cpuacct_charge_hierarchy_exact_witness :
    ((cpuacct_charge [5, 2, 0] 1 true 100 zeroGState) 2 1).cpuusage.usages .user =
      (zeroGState 2 1).cpuusage.usages .user + 100 ∧
    __cpuusage_read (cpuacct_charge [5, 2, 0] 1 true 100 zeroGState) [0, 1] 2 .nstats =
      __cpuusage_read zeroGState [0, 1] 2 .nstats + 100 :=
  cpuacct_charge_hierarchy_exact zeroGState [5, 2, 0] (by decide) [0, 1] (by decide)
    1 (by decide) true 100 2 (by decide) (by decide)


/-- Claim C3: for every cursor, each component value produced by a
`cputime_adjust` adjustment is ≥ the component value produced by the
previous adjustment on that same cursor — for arbitrary (hence also for
the same or increasing) raw inputs the reported pair never regresses. -/
theorem cputime_adjust_monotone (cur : PrevCputime)
    (t1 a1 b1 t2 a2 b2 : Nat) :
    cur.utime ≤ (cputime_adjust t1 a1 b1 cur).1 ∧
    cur.stime ≤ (cputime_adjust t1 a1 b1 cur).2.1 ∧
    (cputime_adjust t1 a1 b1 cur).1 ≤
      (cputime_adjust t2 a2 b2 (cputime_adjust t1 a1 b1 cur).2.2).1 ∧
    (cputime_adjust t1 a1 b1 cur).2.1 ≤
      (cputime_adjust t2 a2 b2 (cputime_adjust t1 a1 b1 cur).2.2).2.1 := by
  have h1 := cputime_adjust_ge t1 a1 b1 cur
  have h2 := cputime_adjust_ge t2 a2 b2 (cputime_adjust t1 a1 b1 cur).2.2
  have hc := cputime_adjust_cursor t1 a1 b1 cur
  rw [hc]
  rw [hc] at h2
  exact ⟨h1.1, h1.2, h2.1, h2.2⟩

theorem takeWhile_ne_front (front : List Nat) (root : Nat) (h : root ∉ front) :
    (front ++ [root]).takeWhile (fun g => g != root) = front := by
  induction front with
  | nil =>
      show List.takeWhile (fun g => g != root) [root] = []
      simp [List.takeWhile_cons]
  | cons x t ih =>
      have hx : x ≠ root := fun hr => h (hr ▸ List.mem_cons_self _ _)
      have hb : (x != root) = true := by simp [hx]
      show List.takeWhile (fun g => g != root) (x :: (t ++ [root])) = x :: t
      rw [List.takeWhile_cons]
      simp only [hb, if_true]
      rw [ih (fun hm => h (List.mem_cons_of_mem _ hm))]

/-- Claim C6: for the machine-wide-canonical cpustat categories, the
upward walk of `cpuacct_account_field` stops before crossing into the
root group: the root's shard is untouched on every CPU, while the
`cpustat[idx]` counter on the charging CPU of every non-root ancestor
(the members of `front`) is incremented by exactly `val`. -/
theorem cpuacct_account_field_stops_at_root
    (front : List Nat) (root : Nat) (hnd : (front ++ [root]).Nodup)
    (cpu : Nat) (idx : CpustatIdx) (val : Nat) (st : GState)
    (g : Nat) (hg : g ∈ front)
    (hov : (st g cpu).cpustat idx + val < W) :
    (∀ c', (cpuacct_account_field (front ++ [root]) root cpu idx val st) root c' =
      st root c') ∧
    ((cpuacct_account_field (front ++ [root]) root cpu idx val st) g cpu).cpustat idx =
      (st g cpu).cpustat idx + val := by
  have hfr : front.Nodup := (List.nodup_append.mp hnd).1
  have hdisj := (List.nodup_append.mp hnd).2.2
  have hroot : root ∉ front := fun hm => hdisj hm (List.mem_singleton_self root)
  unfold cpuacct_account_field
  rw [takeWhile_ne_front front root hroot]
  constructor
  · intro c'
    exact foldl_update_other front cpu _ st root c' (Or.inl hroot)
  · rw [foldl_update_mem front hfr cpu _ st g hg]
    show (if idx = idx then add64 ((st g cpu).cpustat idx) val
      else (st g cpu).cpustat idx) = (st g cpu).cpustat idx + val
    rw [if_pos rfl]
    exact add64_eq_add _ _ hov

theorem cpuacct_account_field_stops_at_root_witness :
    (∀ c', (cpuacct_account_field ([1, 2] ++ [0]) 0 3 .cputime_irq 5 zeroGState) 0 c' =
      zeroGState 0 c') ∧
    ((cpuacct_account_field ([1, 2] ++ [0]) 0 3 .cputime_irq 5 zeroGState) 1 3).cpustat
        .cputime_irq =
      (zeroGState 1 3).cpustat .cputime_irq + 5 :=
  cpuacct_account_field_stops_at_root [1, 2] 0 (by decide) 3 .cputime_irq 5
    zeroGState 1 (by decide) (by decide)


theorem resetUsages_eq (us : StatIdx → Nat) (val : Nat) :
    (statIdxList.foldl (fun us i => fun j => if j = i then val else us j) us) =
      fun _ => val := by
  funext j
  cases j <;> rfl

theorem cpuusage_write_eq (st : GState) (g c v : Nat) :
    cpuacct_cpuusage_write st g c v =
      updateGC st g c (fun x =>
        { x with cpuusage := { x.cpuusage with usages := fun _ => v } }) := by
  unfold cpuacct_cpuusage_write
  simp only [resetUsages_eq]

theorem reset_fold_other_group (cpus : List Nat) (g v : Nat) (st : GState)
    (g' c' : Nat) (h : g' ≠ g) :
    (cpus.foldl (fun s c => cpuacct_cpuusage_write s g c v) st) g' c' = st g' c' := by
  induction cpus generalizing st with
  | nil => rfl
  | cons x t ih =>
      simp only [List.foldl_cons]
      rw [ih]
      rw [cpuusage_write_eq]
      unfold updateGC
      simp [h]

theorem reset_fold_other_cpu (cpus : List Nat) (g v : Nat) (st : GState)
    (g' c' : Nat) (h : c' ∉ cpus) :
    (cpus.foldl (fun s c => cpuacct_cpuusage_write s g c v) st) g' c' = st g' c' := by
  induction cpus generalizing st with
  | nil => rfl
  | cons x t ih =>
      simp only [List.foldl_cons]
      rw [ih _ (fun hm => h (List.mem_cons_of_mem _ hm))]
      rw [cpuusage_write_eq]
      unfold updateGC
      have hcx : c' ≠ x := fun hr => h (hr ▸ List.mem_cons_self _ _)
      simp [hcx]

theorem reset_fold_frame (cpus : List Nat) (g v : Nat) (st : GState) (g' c' : Nat) :
    ((cpus.foldl (fun s c => cpuacct_cpuusage_write s g c v) st) g' c').cpuusage.prev_cputime1 =
      (st g' c').cpuusage.prev_cputime1 ∧
    ((cpus.foldl (fun s c => cpuacct_cpuusage_write s g c v) st) g' c').cpuusage.prev_cputime2 =
      (st g' c').cpuusage.prev_cputime2 ∧
    ((cpus.foldl (fun s c => cpuacct_cpuusage_write s g c v) st) g' c').cpustat =
      (st g' c').cpustat ∧
    ((cpus.foldl (fun s c => cpuacct_cpuusage_write s g c v) st) g' c').nr_migrations =
      (st g' c').nr_migrations := by
  induction cpus generalizing st with
  | nil => exact ⟨rfl, rfl, rfl, rfl⟩
  | cons x t ih =>
      simp only [List.foldl_cons]
      have h2 := ih (cpuacct_cpuusage_write st g x v)
      have h1 : ((cpuacct_cpuusage_write st g x v) g' c').cpuusage.prev_cputime1 =
            (st g' c').cpuusage.prev_cputime1 ∧
          ((cpuacct_cpuusage_write st g x v) g' c').cpuusage.prev_cputime2 =
            (st g' c').cpuusage.prev_cputime2 ∧
          ((cpuacct_cpuusage_write st g x v) g' c').cpustat = (st g' c').cpustat ∧
          ((cpuacct_cpuusage_write st g x v) g' c').nr_migrations =
            (st g' c').nr_migrations := by
        rw [cpuusage_write_eq]
        unfold updateGC
        by_cases hc : g' = g ∧ c' = x
        · simp [hc]
        · simp [hc]
      exact ⟨h2.1.trans h1.1, h2.2.1.trans h1.2.1,
        h2.2.2.1.trans h1.2.2.1, h2.2.2.2.trans h1.2.2.2⟩

theorem reset_fold_usages_zero (cpus : List Nat) (g v : Nat) (st : GState)
    (c' : Nat) (hc' : c' ∈ cpus) :
    ((cpus.foldl (fun s c => cpuacct_cpuusage_write s g c v) st) g c').cpuusage.usages =
      fun _ => v := by
  induction cpus generalizing st with
  | nil => cases hc'
  | cons x t ih =>
      simp only [List.foldl_cons]
      rcases List.mem_cons.mp hc' with rfl | hct
      · by_cases hx : c' ∈ t
        · exact ih _ hx
        · rw [reset_fold_other_cpu t g v _ g c' hx, cpuusage_write_eq]
          unfold updateGC
          simp
      · exact ih _ hct

/-- Claim C5: the reset operation `cpuusage_write` accepts only the
literal value zero: any non-zero requested value yields `-EINVAL` with
the state untouched, and after a zero-valued reset every category read
(`user`, `system` or the `NSTATS` sum) of that group is zero on every
possible CPU. -/
theorem cpuusage_write_reset_spec (st : GState) (cpus : List Nat) (g : Nat)
    (val : Nat) :
    (val ≠ 0 → cpuusage_write st cpus g val = (-22, st)) ∧
    (∀ cpu ∈ cpus, ∀ idx : ReadIdx,
      cpuacct_cpuusage_read (cpuusage_write st cpus g 0).2 g cpu idx = 0) := by
  constructor
  · intro h
    unfold cpuusage_write
    simp [h]
  · intro cpu hcpu idx
    have hz : ((cpuusage_write st cpus g 0).2 g cpu).cpuusage.usages = fun _ => 0 := by
      show ((cpus.foldl (fun s c => cpuacct_cpuusage_write s g c 0) st) g cpu).cpuusage.usages =
        fun _ => 0
      exact reset_fold_usages_zero cpus g 0 st cpu hcpu
    cases idx with
    | nstats =>
        rw [cpuusage_read_nstats, hz]
        rfl
    | stat i =>
        show ((cpuusage_write st cpus g 0).2 g cpu).cpuusage.usages i = 0
        rw [hz]

theorem cpuusage_write_reset_spec_witness :
    cpuusage_write zeroGState [0, 1] 4 3 = (-22, zeroGState) ∧
    cpuacct_cpuusage_read (cpuusage_write zeroGState [0, 1] 4 0).2 4 1 .nstats = 0 :=
  ⟨(cpuusage_write_reset_spec zeroGState [0, 1] 4 3).1 (by decide),
   (cpuusage_write_reset_spec zeroGState [0, 1] 4 0).2 1 (by decide) .nstats⟩

theorem usage_result_cursor_ge (gc : GroupCpuState) (cpu : Nat) (t : TaskGroup)
    (sse : Bool) (now : Nat) :
    gc.cpuusage.prev_cputime1.stime ≤
      (__cpuacct_get_usage_result gc cpu (some t) sse now).1.system ∧
    gc.cpuusage.prev_cputime2.utime ≤
      (__cpuacct_get_usage_result gc cpu (some t) sse now).1.user ∧
    gc.cpuusage.prev_cputime2.stime ≤
      (__cpuacct_get_usage_result gc cpu (some t) sse now).1.nice := by
  have h1 := cputime_adjust_ge
    (add64 (gc.cpuusage.usages .user) (gc.cpuusage.usages .system))
    (add64 (gc.cpustat .cputime_user) (gc.cpustat .cputime_nice))
    (gc.cpustat .cputime_system) gc.cpuusage.prev_cputime1
  have h2 := cputime_adjust_ge
    (cputime_adjust
      (add64 (gc.cpuusage.usages .user) (gc.cpuusage.usages .system))
      (add64 (gc.cpustat .cputime_user) (gc.cpustat .cputime_nice))
      (gc.cpustat .cputime_system) gc.cpuusage.prev_cputime1).1
    (gc.cpustat .cputime_user) (gc.cpustat .cputime_nice) gc.cpuusage.prev_cputime2
  exact ⟨h1.2, h2.1, h2.2⟩

/-- Claim C10: a zero-valued reset of a group mutates only the per-CPU
usage accumulators; it leaves the two reconciliation cursors, the per-CPU
`cpustat` banks and the migration counters of every shard unchanged (and
does not touch other groups at all), so the reconciled statistics
reported afterwards never drop below the cursor values last reported
before the reset. -/
theorem reset_zero_frame_and_no_drop (st : GState) (cpus : List Nat) (g : Nat) :
    (∀ g' c',
      ((cpuusage_write st cpus g 0).2 g' c').cpuusage.prev_cputime1 =
        (st g' c').cpuusage.prev_cputime1 ∧
      ((cpuusage_write st cpus g 0).2 g' c').cpuusage.prev_cputime2 =
        (st g' c').cpuusage.prev_cputime2 ∧
      ((cpuusage_write st cpus g 0).2 g' c').cpustat = (st g' c').cpustat ∧
      ((cpuusage_write st cpus g 0).2 g' c').nr_migrations =
        (st g' c').nr_migrations) ∧
    (∀ g' c', g' ≠ g → (cpuusage_write st cpus g 0).2 g' c' = st g' c') ∧
    (∀ c' ∈ cpus,
      ((cpuusage_write st cpus g 0).2 g c').cpuusage.usages = fun _ => 0) ∧
    (∀ cpu (t : TaskGroup) (sse : Bool) (now : Nat),
      (st g cpu).cpuusage.prev_cputime1.stime ≤
        (__cpuacct_get_usage_result ((cpuusage_write st cpus g 0).2 g cpu)
          cpu (some t) sse now).1.system ∧
      (st g cpu).cpuusage.prev_cputime2.utime ≤
        (__cpuacct_get_usage_result ((cpuusage_write st cpus g 0).2 g cpu)
          cpu (some t) sse now).1.user ∧
      (st g cpu).cpuusage.prev_cputime2.stime ≤
        (__cpuacct_get_usage_result ((cpuusage_write st cpus g 0).2 g cpu)
          cpu (some t) sse now).1.nice) := by
  have hfold : (cpuusage_write st cpus g 0).2 =
      cpus.foldl (fun s c => cpuacct_cpuusage_write s g c 0) st := rfl
  refine ⟨?_, ?_, ?_, ?_⟩
  · intro g' c'
    rw [hfold]
    exact reset_fold_frame cpus g 0 st g' c'
  · intro g' c' h
    rw [hfold]
    exact reset_fold_other_group cpus g 0 st g' c' h
  · intro c' hc'
    rw [hfold]
    exact reset_fold_usages_zero cpus g 0 st c' hc'
  · intro cpu t sse now
    have hge := usage_result_cursor_ge ((cpuusage_write st cpus g 0).2 g cpu)
      cpu t sse now
    have hfr := reset_fold_frame cpus g 0 st g cpu
    rw [hfold] at hge
    rw [hfold]
    rw [hfr.1, hfr.2.1] at hge
    exact hge

theorem reset_zero_frame_and_no_drop_witness :
    (cpuusage_write zeroGState [0] 0 0).2 1 0 = zeroGState 1 0 ∧
    ((cpuusage_write zeroGState [0] 0 0).2 0 0).cpuusage.usages = (fun _ => 0) ∧
    (zeroGState 0 0).cpuusage.prev_cputime1.stime ≤
      (__cpuacct_get_usage_result ((cpuusage_write zeroGState [0] 0 0).2 0 0)
        0 (some ⟨fun _ => none⟩) false 0).1.system :=
  ⟨(reset_zero_frame_and_no_drop zeroGState [0] 0).2.1 1 0 (by decide),
   (reset_zero_frame_and_no_drop zeroGState [0] 0).2.2.1 0 (by decide),
   ((reset_zero_frame_and_no_drop zeroGState [0] 0).2.2.2 0 ⟨fun _ => none⟩ false 0).1⟩

/-- Claim C7: the snapshot computation applies the reconciler twice per
CPU per group, in sequence and with the two independent cursors: the
first call splits total execution time (sum of the user and system usage
accumulators) into (system, user+nice) from tick-sampled
(stime, utime+unice) using `prev_cputime1`; the second call splits the
user+nice output of the first call into (user, nice) from tick-sampled
(utime, unice) using `prev_cputime2`. -/
theorem usage_result_two_step_split (gc : GroupCpuState) (cpu : Nat)
    (t : TaskGroup) (sse : Bool) (now : Nat)
    (h1 : gc.cpuusage.usages .user + gc.cpuusage.usages .system < W)
    (h2 : gc.cpustat .cputime_user + gc.cpustat .cputime_nice < W) :
    ((__cpuacct_get_usage_result gc cpu (some t) sse now).1.user,
     (__cpuacct_get_usage_result gc cpu (some t) sse now).1.nice,
     (__cpuacct_get_usage_result gc cpu (some t) sse now).1.system) =
      (specTwoStepSplit (gc.cpuusage.usages .user + gc.cpuusage.usages .system)
        (gc.cpustat .cputime_user) (gc.cpustat .cputime_nice)
        (gc.cpustat .cputime_system)
        gc.cpuusage.prev_cputime1 gc.cpuusage.prev_cputime2).1 ∧
    (__cpuacct_get_usage_result gc cpu (some t) sse now).2.cpuusage.prev_cputime1 =
      (specTwoStepSplit (gc.cpuusage.usages .user + gc.cpuusage.usages .system)
        (gc.cpustat .cputime_user) (gc.cpustat .cputime_nice)
        (gc.cpustat .cputime_system)
        gc.cpuusage.prev_cputime1 gc.cpuusage.prev_cputime2).2.1 ∧
    (__cpuacct_get_usage_result gc cpu (some t) sse now).2.cpuusage.prev_cputime2 =
      (specTwoStepSplit (gc.cpuusage.usages .user + gc.cpuusage.usages .system)
        (gc.cpustat .cputime_user) (gc.cpustat .cputime_nice)
        (gc.cpustat .cputime_system)
        gc.cpuusage.prev_cputime1 gc.cpuusage.prev_cputime2).2.2 := by
  simp only [__cpuacct_get_usage_result, specTwoStepSplit]
  rw [add64_eq_add _ _ h1, add64_eq_add _ _ h2]
  exact ⟨rfl, rfl, rfl⟩

theorem usage_result_two_step_split_witness :
    ((__cpuacct_get_usage_result zeroGroupCpuState 0 (some ⟨fun _ => none⟩) false 0).1.user,
     (__cpuacct_get_usage_result zeroGroupCpuState 0 (some ⟨fun _ => none⟩) false 0).1.nice,
     (__cpuacct_get_usage_result zeroGroupCpuState 0 (some ⟨fun _ => none⟩) false 0).1.system) =
      (specTwoStepSplit 0 0 0 0 ⟨0, 0⟩ ⟨0, 0⟩).1 :=
  (usage_result_two_step_split zeroGroupCpuState 0 ⟨fun _ => none⟩ false 0
    (by decide) (by decide)).1

theorem usage_result_windows (gc : GroupCpuState) (cpu : Nat) (t : TaskGroup)
    (now : Nat) (e : SchedEntity) (hse : t.se cpu = some e) :
    (__cpuacct_get_usage_result gc cpu (some t) true now).1.iowait =
      (if e.cg_iowait_start ≠ 0
       then add64 e.cg_iowait_sum (sub64 now e.cg_iowait_start)
       else e.cg_iowait_sum) ∧
    (__cpuacct_get_usage_result gc cpu (some t) true now).1.idle =
      sub64
        (if e.cg_idle_start ≠ 0 ∧ e.cg_idle_start < now
         then add64 e.cg_idle_sum (now - e.cg_idle_start) else e.cg_idle_sum)
        (if e.cg_iowait_start ≠ 0
         then add64 e.cg_iowait_sum (sub64 now e.cg_iowait_start)
         else e.cg_iowait_sum) ∧
    (__cpuacct_get_usage_result gc cpu (some t) true now).1.steal =
      (if add64 (add64
            (if e.cg_idle_start ≠ 0 ∧ e.cg_idle_start < now
             then add64 e.cg_idle_sum (now - e.cg_idle_start) else e.cg_idle_sum)
            e.sum_exec_raw)
          (if e.cg_ineffective_start ≠ 0
           then add64 e.cg_ineffective_sum (sub64 now e.cg_ineffective_start)
           else e.cg_ineffective_sum) <
          sub64 now e.cg_init_time
       then sub64 now e.cg_init_time - add64 (add64
            (if e.cg_idle_start ≠ 0 ∧ e.cg_idle_start < now
             then add64 e.cg_idle_sum (now - e.cg_idle_start) else e.cg_idle_sum)
            e.sum_exec_raw)
          (if e.cg_ineffective_start ≠ 0
           then add64 e.cg_ineffective_sum (sub64 now e.cg_ineffective_start)
           else e.cg_ineffective_sum)
       else 0) := by
  refine ⟨?_, ?_, ?_⟩ <;> simp only [__cpuacct_get_usage_result, hse]

/-- Claim C8: for every (CPU, group) window-snapshot read, the returned
idle and iowait sums are each extended by `now - start` when the
corresponding window is currently open (`start ≠ 0`), and the reported
idle value is the accumulated idle sum net of the iowait sum. -/
theorem usage_result_idle_iowait_extension (gc : GroupCpuState) (cpu : Nat)
    (t : TaskGroup) (now : Nat) (e : SchedEntity) (hse : t.se cpu = some e)
    (hnow : now < W)
    (hi1 : e.cg_idle_start ≤ now) (hio1 : e.cg_iowait_start ≤ now)
    (hb1 : e.cg_idle_sum + (now - e.cg_idle_start) < W)
    (hb2 : e.cg_iowait_sum + (now - e.cg_iowait_start) < W)
    (hle : (if e.cg_iowait_start ≠ 0
            then e.cg_iowait_sum + (now - e.cg_iowait_start) else e.cg_iowait_sum) ≤
           (if e.cg_idle_start ≠ 0
            then e.cg_idle_sum + (now - e.cg_idle_start) else e.cg_idle_sum)) :
    (__cpuacct_get_usage_result gc cpu (some t) true now).1.iowait =
      (if e.cg_iowait_start ≠ 0
       then e.cg_iowait_sum + (now - e.cg_iowait_start) else e.cg_iowait_sum) ∧
    (__cpuacct_get_usage_result gc cpu (some t) true now).1.idle =
      (if e.cg_idle_start ≠ 0
       then e.cg_idle_sum + (now - e.cg_idle_start) else e.cg_idle_sum) -
      (if e.cg_iowait_start ≠ 0
       then e.cg_iowait_sum + (now - e.cg_iowait_start) else e.cg_iowait_sum) := by
  obtain ⟨hw1, hw2, -⟩ := usage_result_windows gc cpu t now e hse
  have hiow : (if e.cg_iowait_start ≠ 0
      then add64 e.cg_iowait_sum (sub64 now e.cg_iowait_start)
      else e.cg_iowait_sum) =
      (if e.cg_iowait_start ≠ 0
       then e.cg_iowait_sum + (now - e.cg_iowait_start) else e.cg_iowait_sum) := by
    by_cases h : e.cg_iowait_start = 0
    · simp [h]
    · rw [if_pos h, if_pos h,
        sub64_eq_sub now e.cg_iowait_start hnow (by omega) hio1]
      exact add64_eq_add _ _ hb2
  have hidle : (if e.cg_idle_start ≠ 0 ∧ e.cg_idle_start < now
      then add64 e.cg_idle_sum (now - e.cg_idle_start) else e.cg_idle_sum) =
      (if e.cg_idle_start ≠ 0
       then e.cg_idle_sum + (now - e.cg_idle_start) else e.cg_idle_sum) := by
    by_cases h : e.cg_idle_start = 0
    · simp [h]
    · by_cases h2 : e.cg_idle_start < now
      · rw [if_pos ⟨h, h2⟩, if_pos h]
        exact add64_eq_add _ _ hb1
      · rw [if_neg (fun hc => h2 hc.2), if_pos h]
        have h3 : now - e.cg_idle_start = 0 := by omega
        rw [h3]
        omega
  refine ⟨?_, ?_⟩
  · rw [hw1, hiow]
  · rw [hw2, hiow, hidle]
    have hA : (if e.cg_idle_start ≠ 0
        then e.cg_idle_sum + (now - e.cg_idle_start) else e.cg_idle_sum) < W := by
      split_ifs <;> omega
    have hB : (if e.cg_iowait_start ≠ 0
        then e.cg_iowait_sum + (now - e.cg_iowait_start) else e.cg_iowait_sum) < W := by
      split_ifs <;> omega
    exact sub64_eq_sub _ _ hA hB hle

theorem usage_result_idle_iowait_extension_witness :
    (__cpuacct_get_usage_result zeroGroupCpuState 0
      (some ⟨fun _ => some ⟨10, 5, 2, 8, 0, 0, 0, 0⟩⟩) true 15).1.iowait = 9 ∧
    (__cpuacct_get_usage_result zeroGroupCpuState 0
      (some ⟨fun _ => some ⟨10, 5, 2, 8, 0, 0, 0, 0⟩⟩) true 15).1.idle = 11 :=
  usage_result_idle_iowait_extension zeroGroupCpuState 0
    ⟨fun _ => some ⟨10, 5, 2, 8, 0, 0, 0, 0⟩⟩ 15 ⟨10, 5, 2, 8, 0, 0, 0, 0⟩ rfl
    (by decide) (by decide) (by decide) (by decide) (by decide) (by decide)

/-- Claim C9: for every (CPU, group) snapshot (schedstat branch), the
reported steal time equals `max 0 (elapsed - idle - rawExec -
ineffective)` over the integers, where `elapsed = now - cg_init_time`,
`idle` is the gross extended idle sum (before the iowait carve-out, per
the clamp-point caveat of the spec), `rawExec = sum_exec_raw` and
`ineffective` is the extended ineffective sum; the result is never
negative. -/
theorem usage_result_steal_formula (gc : GroupCpuState) (cpu : Nat)
    (t : TaskGroup) (now : Nat) (e : SchedEntity) (hse : t.se cpu = some e)
    (hnow : now < W)
    (hinit : e.cg_init_time ≤ now)
    (hi1 : e.cg_idle_start ≤ now)
    (hie : e.cg_ineffective_start ≤ now)
    (hb1 : e.cg_idle_sum + (now - e.cg_idle_start) < W)
    (hcomp : (if e.cg_idle_start ≠ 0
              then e.cg_idle_sum + (now - e.cg_idle_start) else e.cg_idle_sum) +
             e.sum_exec_raw +
             (if e.cg_ineffective_start ≠ 0
              then e.cg_ineffective_sum + (now - e.cg_ineffective_start)
              else e.cg_ineffective_sum) < W) :
    ((__cpuacct_get_usage_result gc cpu (some t) true now).1.steal : Int) =
      max 0 ((now : Int) - (e.cg_init_time : Int) -
        ((if e.cg_idle_start ≠ 0
          then e.cg_idle_sum + (now - e.cg_idle_start) else e.cg_idle_sum : Nat) : Int) -
        (e.sum_exec_raw : Int) -
        ((if e.cg_ineffective_start ≠ 0
          then e.cg_ineffective_sum + (now - e.cg_ineffective_start)
          else e.cg_ineffective_sum : Nat) : Int)) ∧
    0 ≤ ((__cpuacct_get_usage_result gc cpu (some t) true now).1.steal : Int) := by
  obtain ⟨-, -, hw3⟩ := usage_result_windows gc cpu t now e hse
  have hidle : (if e.cg_idle_start ≠ 0 ∧ e.cg_idle_start < now
      then add64 e.cg_idle_sum (now - e.cg_idle_start) else e.cg_idle_sum) =
      (if e.cg_idle_start ≠ 0
       then e.cg_idle_sum + (now - e.cg_idle_start) else e.cg_idle_sum) := by
    by_cases h : e.cg_idle_start = 0
    · simp [h]
    · by_cases h2 : e.cg_idle_start < now
      · rw [if_pos ⟨h, h2⟩, if_pos h]
        exact add64_eq_add _ _ hb1
      · rw [if_neg (fun hc => h2 hc.2), if_pos h]
        have h3 : now - e.cg_idle_start = 0 := by omega
        rw [h3]
        omega
  have hineff : (if e.cg_ineffective_start ≠ 0
      then add64 e.cg_ineffective_sum (sub64 now e.cg_ineffective_start)
      else e.cg_ineffective_sum) =
      (if e.cg_ineffective_start ≠ 0
       then e.cg_ineffective_sum + (now - e.cg_ineffective_start)
       else e.cg_ineffective_sum) := by
    by_cases h : e.cg_ineffective_start = 0
    · simp [h]
    · rw [if_pos h, if_pos h,
        sub64_eq_sub now e.cg_ineffective_start hnow (by omega) hie]
      apply add64_eq_add
      rw [if_pos h] at hcomp
      omega
  have helapse : sub64 now e.cg_init_time = now - e.cg_init_time :=
    sub64_eq_sub now e.cg_init_time hnow (by omega) hinit
  have hinner : (if e.cg_idle_start ≠ 0
      then e.cg_idle_sum + (now - e.cg_idle_start) else e.cg_idle_sum) +
      e.sum_exec_raw < W := by omega
  rw [hw3, hidle, hineff, helapse, add64_eq_add _ _ hinner, add64_eq_add _ _ hcomp]
  set A := (if e.cg_idle_start ≠ 0
    then e.cg_idle_sum + (now - e.cg_idle_start) else e.cg_idle_sum) with hA
  set B := (if e.cg_ineffective_start ≠ 0
    then e.cg_ineffective_sum + (now - e.cg_ineffective_start)
    else e.cg_ineffective_sum) with hB
  constructor
  · by_cases hC : A + e.sum_exec_raw + B < now - e.cg_init_time
    · rw [if_pos hC]
      rw [max_eq_right (by omega)]
      omega
    · rw [if_neg hC]
      rw [max_eq_left (by omega)]
      omega
  · split_ifs <;> simp

theorem usage_result_steal_formula_witness :
    ((__cpuacct_get_usage_result zeroGroupCpuState 0
      (some ⟨fun _ => some ⟨10, 0, 0, 0, 4, 0, 0, 20⟩⟩) true 50).1.steal : Int) =
      max 0 ((50 : Int) - 0 - 10 - 20 - 4) ∧
    0 ≤ ((__cpuacct_get_usage_result zeroGroupCpuState 0
      (some ⟨fun _ => some ⟨10, 0, 0, 0, 4, 0, 0, 20⟩⟩) true 50).1.steal : Int) :=
  usage_result_steal_formula zeroGroupCpuState 0
    ⟨fun _ => some ⟨10, 0, 0, 0, 4, 0, 0, 20⟩⟩ 50 ⟨10, 0, 0, 0, 4, 0, 0, 20⟩ rfl
    (by decide) (by decide) (by decide) (by decide) (by decide) (by decide)

theorem add64_mod_shift (a r s : Nat) : (add64 a r + s) % W = (a + (r + s)) % W := by
  unfold add64
  rw [Nat.mod_add_mod, Nat.add_assoc]

theorem add64_mod_shift2 (a r1 r2 s : Nat) :
    (add64 (add64 a r1) r2 + s) % W = (a + (r1 + r2 + s)) % W := by
  unfold add64
  rw [Nat.mod_add_mod]
  have h : (a + r1) % W + r2 + s = (a + r1) % W + (r2 + s) := by omega
  rw [h, Nat.mod_add_mod]
  congr 1
  omega

theorem procStatsStep_pos (sts : Nat → GroupCpuState) (tg : Option TaskGroup)
    (sse : Bool) (clock : Nat → Nat) (hk : Nat → Bool) (a : ProcStats) (c : Nat)
    (h : hk c = true) :
    procStatsStep sts tg sse clock hk a c =
      { user := add64 a.user (procResAt sts tg sse clock c).user,
        nice := add64 a.nice (procResAt sts tg sse clock c).nice,
        system := add64 a.system (procResAt sts tg sse clock c).system,
        idle := add64 a.idle (procResAt sts tg sse clock c).idle,
        iowait := add64 a.iowait (procResAt sts tg sse clock c).iowait,
        irq := add64 a.irq (procResAt sts tg sse clock c).irq,
        softirq := add64 a.softirq (procResAt sts tg sse clock c).softirq,
        steal := add64 a.steal (procResAt sts tg sse clock c).steal,
        guest := add64 (add64 a.guest (procResAt sts tg sse clock c).guest)
          (procResAt sts tg sse clock c).guest_nice,
        nr_migrations := add64 a.nr_migrations (sts c).nr_migrations } := by
  unfold procStatsStep procResAt
  rw [if_pos h]

theorem procStatsStep_neg (sts : Nat → GroupCpuState) (tg : Option TaskGroup)
    (sse : Bool) (clock : Nat → Nat) (hk : Nat → Bool) (a : ProcStats) (c : Nat)
    (h : hk c = false) :
    procStatsStep sts tg sse clock hk a c = a := by
  unfold procStatsStep
  rw [if_neg (by simp [h])]

theorem proc_stats_fold (cpus : List Nat) (hk : Nat → Bool)
    (sts : Nat → GroupCpuState) (tg : Option TaskGroup) (sse : Bool)
    (clock : Nat → Nat) (acc : ProcStats)
    (h1 : acc.user < W) (h2 : acc.nice < W) (h3 : acc.system < W)
    (h4 : acc.idle < W) (h5 : acc.iowait < W) (h6 : acc.irq < W)
    (h7 : acc.softirq < W) (h8 : acc.steal < W) (h9 : acc.guest < W)
    (h10 : acc.nr_migrations < W) :
    cpus.foldl (procStatsStep sts tg sse clock hk) acc =
      { user := (acc.user + ((cpus.filter hk).map fun c =>
          (procResAt sts tg sse clock c).user).sum) % W,
        nice := (acc.nice + ((cpus.filter hk).map fun c =>
          (procResAt sts tg sse clock c).nice).sum) % W,
        system := (acc.system + ((cpus.filter hk).map fun c =>
          (procResAt sts tg sse clock c).system).sum) % W,
        idle := (acc.idle + ((cpus.filter hk).map fun c =>
          (procResAt sts tg sse clock c).idle).sum) % W,
        iowait := (acc.iowait + ((cpus.filter hk).map fun c =>
          (procResAt sts tg sse clock c).iowait).sum) % W,
        irq := (acc.irq + ((cpus.filter hk).map fun c =>
          (procResAt sts tg sse clock c).irq).sum) % W,
        softirq := (acc.softirq + ((cpus.filter hk).map fun c =>
          (procResAt sts tg sse clock c).softirq).sum) % W,
        steal := (acc.steal + ((cpus.filter hk).map fun c =>
          (procResAt sts tg sse clock c).steal).sum) % W,
        guest := (acc.guest + ((cpus.filter hk).map fun c =>
          (procResAt sts tg sse clock c).guest +
            (procResAt sts tg sse clock c).guest_nice).sum) % W,
        nr_migrations := (acc.nr_migrations + ((cpus.filter hk).map fun c =>
          (sts c).nr_migrations).sum) % W } := by
  induction cpus generalizing acc with
  | nil =>
      simp only [List.foldl_nil, List.filter_nil, List.map_nil, List.sum_nil,
        Nat.add_zero, Nat.mod_eq_of_lt h1, Nat.mod_eq_of_lt h2, Nat.mod_eq_of_lt h3,
        Nat.mod_eq_of_lt h4, Nat.mod_eq_of_lt h5, Nat.mod_eq_of_lt h6,
        Nat.mod_eq_of_lt h7, Nat.mod_eq_of_lt h8, Nat.mod_eq_of_lt h9,
        Nat.mod_eq_of_lt h10]
  | cons x tl ih =>
      simp only [List.foldl_cons]
      cases hx : hk x with
      | true =>
          rw [procStatsStep_pos sts tg sse clock hk acc x hx,
            List.filter_cons_of_pos hx]
          rw [ih _ (add64_lt _ _) (add64_lt _ _) (add64_lt _ _) (add64_lt _ _)
            (add64_lt _ _) (add64_lt _ _) (add64_lt _ _) (add64_lt _ _)
            (add64_lt _ _) (add64_lt _ _)]
          simp only [List.map_cons, List.sum_cons, ProcStats.mk.injEq]
          refine ⟨?_, ?_, ?_, ?_, ?_, ?_, ?_, ?_, ?_, ?_⟩
          · exact add64_mod_shift _ _ _
          · exact add64_mod_shift _ _ _
          · exact add64_mod_shift _ _ _
          · exact add64_mod_shift _ _ _
          · exact add64_mod_shift _ _ _
          · exact add64_mod_shift _ _ _
          · exact add64_mod_shift _ _ _
          · exact add64_mod_shift _ _ _
          · exact add64_mod_shift2 _ _ _ _
          · exact add64_mod_shift _ _ _
      | false =>
          rw [procStatsStep_neg sts tg sse clock hk acc x hx,
            List.filter_cons_of_neg (by simp [hx])]
          exact ih acc h1 h2 h3 h4 h5 h6 h7 h8 h9 h10

/-- Claim C4 (amended): for a non-root group the extended-statistics read
iterates the possible CPUs but SKIPS those outside the HK_FLAG_DOMAIN
housekeeping set; for each housekeeping CPU it takes the full
per-CPU usage result (both reconciler splits, window snapshot, steal,
irq/softirq/guest/guest_nice from that CPU's cpustat bank) and the
migration count, and the returned snapshot is the sum of these fields
over the possible housekeeping CPUs only. -/
theorem proc_stats_show_housekeeping_sum (cpus : List Nat) (hk : Nat → Bool)
    (sts : Nat → GroupCpuState) (tg : Option TaskGroup) (sse : Bool)
    (clock : Nat → Nat) :
    cpuacct_proc_stats_show cpus hk sts tg sse clock =
      procStatsSumOver (cpus.filter hk) sts tg sse clock := by
  unfold cpuacct_proc_stats_show procStatsSumOver
  rw [proc_stats_fold cpus hk sts tg sse clock zeroProcStats W_pos W_pos W_pos
    W_pos W_pos W_pos W_pos W_pos W_pos W_pos]
  simp only [zeroProcStats, Nat.zero_add]

/-- A two-CPU configuration in which CPU 1 is outside the housekeeping
set and carries a nonzero irq counter. -/
def cexStates : Nat → GroupCpuState := fun c =>
  if c = 1 then
    { cpuusage := zeroCpuacctUsage,
      cpustat := fun i => if i = .cputime_irq then 1 else 0,
      nr_migrations := 0 }
  else zeroGroupCpuState

/-- Claim C4 as stated is false: with possible CPUs {0, 1} and CPU 1 not
housekeeping, the extended-statistics read is NOT the sum of the per-CPU
fields over all possible CPUs — the non-housekeeping CPU is skipped. -/
theorem proc_stats_show_not_all_cpus :
    cpuacct_proc_stats_show [0, 1] (fun c => c == 0) cexStates
        (some ⟨fun _ => none⟩) false (fun _ => 0) ≠
      procStatsSumOver [0, 1] cexStates
        (some ⟨fun _ => none⟩) false (fun _ => 0) := by
  decide

end Cpuacct
